import Mathlib

/-!
Shallow embedding of the 5-level difficulty tag auto-assigner
(classifier `judge_difficulty`, tag reconciler `_assign_difficulty_tags`,
config writer `_write_config_keep_unknown`) and verification of its
specification claims.
-/

set_option autoImplicit false

namespace Difficulty

/-- Tag constant `VERY_HARD_TAG = "VeryHard"`. -/
def VERY_HARD_TAG : String := "VeryHard"

/-- Tag constant `HARD_TAG = "Hard"`. -/
def HARD_TAG : String := "Hard"

/-- Tag constant `MEDIUM_TAG = "Medium"`. -/
def MEDIUM_TAG : String := "Medium"

/-- Tag constant `EASY_TAG = "Easy"`. -/
def EASY_TAG : String := "Easy"

/-- Tag constant `VERY_EASY_TAG = "VeryEasy"`. -/
def VERY_EASY_TAG : String := "VeryEasy"

/-- The list `ALL_TAGS`, in source order. -/
def ALL_TAGS : List String := [VERY_HARD_TAG, HARD_TAG, MEDIUM_TAG, EASY_TAG, VERY_EASY_TAG]

/-- The nine configuration keys, in the order of the `DEFAULTS` dict. -/
def CONFIG_KEYS : List String :=
  ["very_hard_lapses_min", "very_hard_ease_max_pct",
   "hard_lapses_min", "hard_ease_max_pct",
   "easy_lapses_max", "easy_ivl_min", "easy_ease_min_pct",
   "very_easy_ivl_min", "very_easy_ease_min_pct"]

/-- The `DEFAULTS` configuration, as a total lookup (0 on unused keys). -/
def DEFAULTS : String → Int := fun k =>
  if k = "very_hard_lapses_min" then 5
  else if k = "very_hard_ease_max_pct" then 200
  else if k = "hard_lapses_min" then 3
  else if k = "hard_ease_max_pct" then 230
  else if k = "easy_lapses_max" then 0
  else if k = "easy_ivl_min" then 21
  else if k = "easy_ease_min_pct" then 250
  else if k = "very_easy_ivl_min" then 90
  else if k = "very_easy_ease_min_pct" then 280
  else 0

/-- A card, with the fields the add-on reads: owning note id `nid`,
review count `reps`, lapse count `lapses`, interval `ivl`, ease `factor`. -/
structure Card where
  nid : Nat
  reps : Int
  lapses : Int
  ivl : Int
  factor : Int
deriving DecidableEq

/-- The classifier `judge_difficulty(c, cfg)`: ordered, short-circuiting decision list
VeryHard → Hard → VeryEasy → Easy → Medium, with ease-percentage config
values scaled by 10 before comparison against `c.factor`. -/
def judge_difficulty (c : Card) (cfg : String → Int) : String :=
  if c.lapses ≥ cfg "very_hard_lapses_min" ∨ c.factor < cfg "very_hard_ease_max_pct" * 10 then
    VERY_HARD_TAG
  else if c.lapses ≥ cfg "hard_lapses_min" ∨ c.factor < cfg "hard_ease_max_pct" * 10 then
    HARD_TAG
  else if c.ivl ≥ cfg "very_easy_ivl_min" ∨ c.factor ≥ cfg "very_easy_ease_min_pct" * 10 then
    VERY_EASY_TAG
  else if c.lapses ≤ cfg "easy_lapses_max" ∧ c.ivl ≥ cfg "easy_ivl_min" ∧ c.factor ≥ cfg "easy_ease_min_pct" * 10 then
    EASY_TAG
  else
    MEDIUM_TAG

/-- Python-dict insertion on an association list: update the value in place
when the key is already bound (keeping its position), otherwise append the
new binding at the end, as `note_stats[nid] = tag` does. -/
def dinsert : List (Nat × String) → Nat → String → List (Nat × String)
  | [], k, v => [(k, v)]
  | p :: d, k, v => if p.1 = k then (k, v) :: d else p :: dinsert d k v

/-- Python-dict lookup on an association list. -/
def dfind : List (Nat × String) → Nat → Option String
  | [], _ => none
  | p :: d, n => if p.1 = n then some p.2 else dfind d n

/-- Loop body of phase 1 of `_assign_difficulty_tags`: skip cards with
`reps == 0`, otherwise record `note_stats[c.nid] = judge_difficulty(c, cfg)`. -/
def stats_step (cfg : String → Int) (d : List (Nat × String)) (c : Card) : List (Nat × String) :=
  if c.reps = 0 then d else dinsert d c.nid (judge_difficulty c cfg)

/-- Phase 1 of `_assign_difficulty_tags`: the `note_stats` dict mapping each
note id to the label of its last processed qualifying card. -/
def note_stats (cards : List Card) (cfg : String → Int) : List (Nat × String) :=
  cards.foldl (stats_step cfg) []

/-- The `for t in ALL_TAGS: if t in note.tags: note.tags.remove(t)` loop:
erase the first occurrence of each of the five difficulty tags in order. -/
def erase_all (tags : List String) : List String :=
  ALL_TAGS.foldl (fun acc t => acc.erase t) tags

/-- Per-note mutation of phase 2: remove existing difficulty tags, then
append the new tag. -/
def apply_tag (tags : List String) (tag : String) : List String :=
  erase_all tags ++ [tag]

/-- One iteration of phase 2: mutate the note `p.1` with label `p.2` and
increment the processed counter (`changed` is always true in the source). -/
def tags_step (st : (Nat → List String) × Nat) (p : Nat × String) : (Nat → List String) × Nat :=
  (fun n => if n = p.1 then apply_tag (st.1 n) p.2 else st.1 n, st.2 + 1)

/-- Phase 2 of `_assign_difficulty_tags`: apply every recorded label and
count the processed notes. -/
def apply_tags (d : List (Nat × String)) (notes : Nat → List String) : (Nat → List String) × Nat :=
  d.foldl tags_step (notes, 0)

/-- Map-only restatement of the phase-2 fold, used to state lemmas. -/
def map_step (st : Nat → List String) (p : Nat × String) : Nat → List String :=
  fun n => if n = p.1 then apply_tag (st n) p.2 else st n

/-- The note store after phase 2, without the counter. -/
def apply_map (d : List (Nat × String)) (notes : Nat → List String) : Nat → List String :=
  d.foldl map_step notes

/-- The reconciler `_assign_difficulty_tags(col, search, cfg)`, with the externally
selected card sequence and the note store passed explicitly: return 0 when
no card matched, else run both phases. -/
def _assign_difficulty_tags (cards : List Card) (cfg : String → Int)
    (notes : Nat → List String) : (Nat → List String) × Nat :=
  if cards = [] then (notes, 0) else apply_tags (note_stats cards cfg) notes

/-- Number of difficulty-vocabulary tags in a note's tag list. -/
def count_difficulty_tags (l : List String) : Nat :=
  (l.filter fun s => decide (s ∈ ALL_TAGS)).length

/-- The external add-on manager: its stored config dict, and whether its
`writeConfig` / `setConfig` entry points raise. -/
structure AddonManager where
  stored : List (String × Int)
  writeFails : Bool
  setFails : Bool
deriving DecidableEq

/-- Python-dict insertion with string keys (for the config dict). -/
def sinsert : List (String × Int) → String → Int → List (String × Int)
  | [], k, v => [(k, v)]
  | p :: d, k, v => if p.1 = k then (k, v) :: d else p :: sinsert d k v

/-- Python-dict lookup with string keys. -/
def sfind : List (String × Int) → String → Option Int
  | [], _ => none
  | p :: d, n => if p.1 = n then some p.2 else sfind d n

/-- The merge loop of `_write_config_keep_unknown`: starting from the
existing config, overwrite known keys only. -/
def merge_known (base updated : List (String × Int)) : List (String × Int) :=
  CONFIG_KEYS.foldl
    (fun b k => match sfind updated k with
      | some v => sinsert b k v
      | none => b)
    base

/-- Model of `mw.addonManager.writeConfig`: persists the dict on recent builds,
raises on older ones. -/
def writeConfig (m : AddonManager) (cfg : List (String × Int)) : Except String AddonManager :=
  if m.writeFails then Except.error "writeConfig unavailable"
  else Except.ok (AddonManager.mk cfg m.writeFails m.setFails)

/-- Model of `mw.addonManager.setConfig`: the fallback persistence path, which may
itself raise. -/
def setConfig (m : AddonManager) (cfg : List (String × Int)) : Except String AddonManager :=
  if m.setFails then Except.error "setConfig unavailable"
  else Except.ok (AddonManager.mk cfg m.writeFails m.setFails)

/-- The save path `_write_config_keep_unknown(updated)`: merge the known keys into the
existing config, try the primary write, fall back to `setConfig` on
exception, and swallow a second exception (last resort: ignore). -/
def _write_config_keep_unknown (m : AddonManager) (updated : List (String × Int)) :
    Except String AddonManager :=
  match writeConfig m (merge_known m.stored updated) with
  | Except.ok m2 => Except.ok m2
  | Except.error _ =>
    match setConfig m (merge_known m.stored updated) with
    | Except.ok m2 => Except.ok m2
    | Except.error _ => Except.ok m

/-- Claim C1: for admissible inputs, `judge_difficulty` evaluates the five
rules in the fixed order VeryHard, Hard, VeryEasy, Easy, Medium with
short-circuiting (the nested conditional shown), and returns exactly one of
the five labels. -/
theorem judge_difficulty_rule_order (c : Card) (cfg : String → Int)
    (h1 : 0 ≤ c.lapses) (h2 : 0 ≤ c.ivl) (h3 : 0 < c.factor)
    (hcfg : ∀ k ∈ CONFIG_KEYS, 0 ≤ cfg k) :
    judge_difficulty c cfg =
      (if c.lapses ≥ cfg "very_hard_lapses_min" ∨ c.factor < 10 * cfg "very_hard_ease_max_pct" then VERY_HARD_TAG
       else if c.lapses ≥ cfg "hard_lapses_min" ∨ c.factor < 10 * cfg "hard_ease_max_pct" then HARD_TAG
       else if c.ivl ≥ cfg "very_easy_ivl_min" ∨ c.factor ≥ 10 * cfg "very_easy_ease_min_pct" then VERY_EASY_TAG
       else if c.lapses ≤ cfg "easy_lapses_max" ∧ c.ivl ≥ cfg "easy_ivl_min" ∧ c.factor ≥ 10 * cfg "easy_ease_min_pct" then EASY_TAG
       else MEDIUM_TAG) ∧
    judge_difficulty c cfg ∈ ALL_TAGS := by
  constructor
  · simp only [judge_difficulty, Int.mul_comm]
  · unfold judge_difficulty
    split_ifs <;> simp [ALL_TAGS]

/-- Witness for C1 at a concrete card and the default configuration. -/
theorem judge_difficulty_rule_order_witness :
    judge_difficulty (Card.mk 1 1 0 30 2600) DEFAULTS =
      (if (0 : Int) ≥ DEFAULTS "very_hard_lapses_min" ∨ (2600 : Int) < 10 * DEFAULTS "very_hard_ease_max_pct" then VERY_HARD_TAG
       else if (0 : Int) ≥ DEFAULTS "hard_lapses_min" ∨ (2600 : Int) < 10 * DEFAULTS "hard_ease_max_pct" then HARD_TAG
       else if (30 : Int) ≥ DEFAULTS "very_easy_ivl_min" ∨ (2600 : Int) ≥ 10 * DEFAULTS "very_easy_ease_min_pct" then VERY_EASY_TAG
       else if (0 : Int) ≤ DEFAULTS "easy_lapses_max" ∧ (30 : Int) ≥ DEFAULTS "easy_ivl_min" ∧ (2600 : Int) ≥ 10 * DEFAULTS "easy_ease_min_pct" then EASY_TAG
       else MEDIUM_TAG) ∧
    judge_difficulty (Card.mk 1 1 0 30 2600) DEFAULTS ∈ ALL_TAGS :=
  judge_difficulty_rule_order (Card.mk 1 1 0 30 2600) DEFAULTS (by decide) (by decide)
    (by decide) (by decide)

/-- Counterexample to claim C2 as stated: with the default configuration,
`classify(lapses=0, interval=95, ease=2100)` does not return VeryEasy. -/
theorem scenario3_not_very_easy :
    judge_difficulty (Card.mk 1 1 0 95 2100) DEFAULTS ≠ VERY_EASY_TAG := by
  decide

/-- Claim C2 (amended): with the default configuration,
`classify(lapses=0, interval=95, ease=2100)` returns Hard, because
ease 2100 < 2300 fires the Hard rule before VeryEasy is reached. -/
theorem scenario3_returns_hard :
    judge_difficulty (Card.mk 1 1 0 95 2100) DEFAULTS = HARD_TAG := by
  decide

theorem judge_mem_all_tags (c : Card) (cfg : String → Int) :
    judge_difficulty c cfg ∈ ALL_TAGS := by
  unfold judge_difficulty
  split_ifs <;> simp [ALL_TAGS]

theorem mem_dinsert (d : List (Nat × String)) (k : Nat) (v : String) (p : Nat × String)
    (hp : p ∈ dinsert d k v) : p ∈ d ∨ p = (k, v) := by
  induction d with
  | nil => simpa [dinsert] using hp
  | cons q d ih =>
    simp only [dinsert] at hp
    split at hp
    · rcases List.mem_cons.1 hp with h1 | h1
      · exact Or.inr h1
      · exact Or.inl (List.mem_cons_of_mem _ h1)
    · rcases List.mem_cons.1 hp with h1 | h1
      · exact Or.inl (h1 ▸ List.mem_cons_self _ _)
      · rcases ih h1 with h2 | h2
        · exact Or.inl (List.mem_cons_of_mem _ h2)
        · exact Or.inr h2

theorem mem_dinsert_fst (d : List (Nat × String)) (k : Nat) (v : String) (n : Nat) :
    n ∈ (dinsert d k v).map Prod.fst ↔ n = k ∨ n ∈ d.map Prod.fst := by
  induction d with
  | nil => simp [dinsert]
  | cons p d ih =>
    simp only [dinsert]
    split
    next h =>
      simp only [List.map_cons, List.mem_cons, ← h]
      tauto
    next h =>
      simp only [List.map_cons, List.mem_cons, ih]
      tauto

theorem nodup_dinsert_fst (d : List (Nat × String)) (k : Nat) (v : String)
    (hd : (d.map Prod.fst).Nodup) : ((dinsert d k v).map Prod.fst).Nodup := by
  induction d with
  | nil => simp [dinsert]
  | cons p d ih =>
    simp only [dinsert]
    split
    next h =>
      simpa only [List.map_cons, List.nodup_cons, h] using hd
    next h =>
      simp only [List.map_cons, List.nodup_cons] at hd ⊢
      refine ⟨?_, ih hd.2⟩
      intro hmem
      rcases (mem_dinsert_fst d k v p.1).1 hmem with h1 | h1
      · exact h h1
      · exact hd.1 h1

theorem dfind_dinsert (d : List (Nat × String)) (k n : Nat) (v : String) :
    dfind (dinsert d k v) n = if n = k then some v else dfind d n := by
  induction d with
  | nil =>
    by_cases h : n = k
    · simp [dinsert, dfind, h]
    · simp only [dinsert, dfind, if_neg h]
      rw [if_neg (fun he : k = n => h he.symm)]
  | cons p d ih =>
    simp only [dinsert]
    split
    next hpk =>
      by_cases h : n = k
      · simp [dfind, h]
      · simp only [dfind, h, if_false]
        rw [if_neg (fun he : k = n => h he.symm), if_neg (fun he : p.1 = n => h (hpk ▸ he).symm)]
    next hpk =>
      by_cases h : p.1 = n
      · have hnk : n ≠ k := fun he => hpk (h.trans he)
        simp [dfind, h, hnk]
      · simp [dfind, h, ih]

theorem dfind_mem (d : List (Nat × String)) (n : Nat) (t : String)
    (h : dfind d n = some t) : (n, t) ∈ d := by
  induction d with
  | nil => cases h
  | cons p d ih =>
    rcases p with ⟨k, v⟩
    simp only [dfind] at h
    split at h
    next hk =>
      obtain rfl : v = t := by injection h
      obtain rfl : k = n := hk
      exact List.mem_cons_self _ _
    next hk =>
      exact List.mem_cons_of_mem _ (ih h)

theorem erase_all_eq (l : List String) :
    erase_all l =
      ((((l.erase VERY_HARD_TAG).erase HARD_TAG).erase MEDIUM_TAG).erase EASY_TAG).erase
        VERY_EASY_TAG := rfl

theorem mem_erase_all (l : List String) (s : String) (hs : s ∉ ALL_TAGS) :
    s ∈ erase_all l ↔ s ∈ l := by
  simp only [ALL_TAGS, List.mem_cons, List.not_mem_nil, or_false, not_or] at hs
  obtain ⟨h1, h2, h3, h4, h5⟩ := hs
  rw [erase_all_eq, List.mem_erase_of_ne h5, List.mem_erase_of_ne h4, List.mem_erase_of_ne h3,
    List.mem_erase_of_ne h2, List.mem_erase_of_ne h1]

theorem not_mem_erase_self (l : List String) (hl : l.Nodup) (t : String) : t ∉ l.erase t :=
  fun h => ((List.Nodup.mem_erase_iff hl).1 h).1 rfl

theorem not_mem_erase_all (l : List String) (hl : l.Nodup) :
    ∀ t ∈ ALL_TAGS, t ∉ erase_all l := by
  have n1 : (l.erase VERY_HARD_TAG).Nodup := List.Nodup.erase _ hl
  have n2 : ((l.erase VERY_HARD_TAG).erase HARD_TAG).Nodup := List.Nodup.erase _ n1
  have n3 : (((l.erase VERY_HARD_TAG).erase HARD_TAG).erase MEDIUM_TAG).Nodup :=
    List.Nodup.erase _ n2
  have n4 : ((((l.erase VERY_HARD_TAG).erase HARD_TAG).erase MEDIUM_TAG).erase EASY_TAG).Nodup :=
    List.Nodup.erase _ n3
  intro t ht hmem
  rw [erase_all_eq] at hmem
  simp only [ALL_TAGS, List.mem_cons, List.not_mem_nil, or_false] at ht
  rcases ht with rfl | rfl | rfl | rfl | rfl
  · exact not_mem_erase_self _ hl _
      ((List.erase_sublist _ _).subset ((List.erase_sublist _ _).subset
        ((List.erase_sublist _ _).subset ((List.erase_sublist _ _).subset hmem))))
  · exact not_mem_erase_self _ n1 _
      ((List.erase_sublist _ _).subset ((List.erase_sublist _ _).subset
        ((List.erase_sublist _ _).subset hmem)))
  · exact not_mem_erase_self _ n2 _
      ((List.erase_sublist _ _).subset ((List.erase_sublist _ _).subset hmem))
  · exact not_mem_erase_self _ n3 _ ((List.erase_sublist _ _).subset hmem)
  · exact not_mem_erase_self _ n4 _ hmem

theorem not_mem_append_single (m : List String) (s tag : String) (hs : s ∉ m) (hne : s ≠ tag) :
    s ∉ m ++ [tag] := by
  simp [List.mem_append, hs, hne]

theorem erase_all_append_tag (m : List String) (tag : String)
    (hm : ∀ t ∈ ALL_TAGS, t ∉ m) (htag : tag ∈ ALL_TAGS) :
    erase_all (m ++ [tag]) = m := by
  have hVH := hm VERY_HARD_TAG (by simp [ALL_TAGS])
  have hH := hm HARD_TAG (by simp [ALL_TAGS])
  have hM := hm MEDIUM_TAG (by simp [ALL_TAGS])
  have hE := hm EASY_TAG (by simp [ALL_TAGS])
  have hVE := hm VERY_EASY_TAG (by simp [ALL_TAGS])
  rw [erase_all_eq]
  simp only [ALL_TAGS, List.mem_cons, List.not_mem_nil, or_false] at htag
  rcases htag with rfl | rfl | rfl | rfl | rfl
  · rw [List.erase_append_right _ hVH, List.erase_cons_head, List.append_nil,
      List.erase_of_not_mem hH, List.erase_of_not_mem hM, List.erase_of_not_mem hE,
      List.erase_of_not_mem hVE]
  · rw [List.erase_of_not_mem (not_mem_append_single _ _ _ hVH (by decide)),
      List.erase_append_right _ hH, List.erase_cons_head, List.append_nil,
      List.erase_of_not_mem hM, List.erase_of_not_mem hE, List.erase_of_not_mem hVE]
  · rw [List.erase_of_not_mem (not_mem_append_single _ _ _ hVH (by decide)),
      List.erase_of_not_mem (not_mem_append_single _ _ _ hH (by decide)),
      List.erase_append_right _ hM, List.erase_cons_head, List.append_nil,
      List.erase_of_not_mem hE, List.erase_of_not_mem hVE]
  · rw [List.erase_of_not_mem (not_mem_append_single _ _ _ hVH (by decide)),
      List.erase_of_not_mem (not_mem_append_single _ _ _ hH (by decide)),
      List.erase_of_not_mem (not_mem_append_single _ _ _ hM (by decide)),
      List.erase_append_right _ hE, List.erase_cons_head, List.append_nil,
      List.erase_of_not_mem hVE]
  · rw [List.erase_of_not_mem (not_mem_append_single _ _ _ hVH (by decide)),
      List.erase_of_not_mem (not_mem_append_single _ _ _ hH (by decide)),
      List.erase_of_not_mem (not_mem_append_single _ _ _ hM (by decide)),
      List.erase_of_not_mem (not_mem_append_single _ _ _ hE (by decide)),
      List.erase_append_right _ hVE, List.erase_cons_head, List.append_nil]

theorem apply_tag_idem (l : List String) (tag : String) (hl : l.Nodup) (htag : tag ∈ ALL_TAGS) :
    apply_tag (apply_tag l tag) tag = apply_tag l tag := by
  unfold apply_tag
  rw [erase_all_append_tag _ tag (not_mem_erase_all l hl) htag]

theorem count_apply_tag_le_one (l : List String) (tag : String) (hl : l.Nodup) :
    count_difficulty_tags (apply_tag l tag) ≤ 1 := by
  unfold count_difficulty_tags apply_tag
  rw [List.filter_append]
  have h1 : (erase_all l).filter (fun s => decide (s ∈ ALL_TAGS)) = [] := by
    rw [List.filter_eq_nil_iff]
    intro a ha
    simp only [decide_eq_true_eq]
    exact fun hmem => not_mem_erase_all l hl a hmem ha
  rw [h1, List.nil_append]
  exact le_trans (List.length_filter_le _ _) (by simp)

theorem foldl_stats_keys_nodup (cfg : String → Int) (cards : List Card) :
    ∀ d : List (Nat × String), (d.map Prod.fst).Nodup →
      (((cards.foldl (stats_step cfg) d)).map Prod.fst).Nodup := by
  induction cards with
  | nil => intro d hd; simpa using hd
  | cons c cards ih =>
    intro d hd
    simp only [List.foldl_cons]
    unfold stats_step
    by_cases h : c.reps = 0
    · rw [if_pos h]; exact ih d hd
    · rw [if_neg h]; exact ih _ (nodup_dinsert_fst _ _ _ hd)

theorem note_stats_keys_nodup (cards : List Card) (cfg : String → Int) :
    ((note_stats cards cfg).map Prod.fst).Nodup :=
  foldl_stats_keys_nodup cfg cards [] (by simp)

theorem foldl_stats_values (cfg : String → Int) (cards : List Card) :
    ∀ d : List (Nat × String), (∀ p ∈ d, p.2 ∈ ALL_TAGS) →
      ∀ p ∈ cards.foldl (stats_step cfg) d, p.2 ∈ ALL_TAGS := by
  induction cards with
  | nil => intro d hd; simpa using hd
  | cons c cards ih =>
    intro d hd
    simp only [List.foldl_cons]
    unfold stats_step
    by_cases h : c.reps = 0
    · rw [if_pos h]; exact ih d hd
    · rw [if_neg h]
      refine ih _ ?_
      intro p hp
      rcases mem_dinsert _ _ _ _ hp with h1 | h1
      · exact hd p h1
      · rw [h1]; exact judge_mem_all_tags c cfg

theorem note_stats_values (cards : List Card) (cfg : String → Int) :
    ∀ p ∈ note_stats cards cfg, p.2 ∈ ALL_TAGS :=
  foldl_stats_values cfg cards [] (by simp)

theorem dfind_foldl_stats (cfg : String → Int) (n : Nat) (cards : List Card) :
    ∀ d : List (Nat × String),
      dfind (cards.foldl (stats_step cfg) d) n =
        Option.or
          (((cards.reverse.find? fun c => decide (c.nid = n ∧ c.reps ≠ 0)).map
            fun c => judge_difficulty c cfg))
          (dfind d n) := by
  induction cards with
  | nil => intro d; rfl
  | cons c cards ih =>
    intro d
    simp only [List.foldl_cons, List.reverse_cons, List.find?_append]
    rw [ih (stats_step cfg d c)]
    cases hf : cards.reverse.find? fun c => decide (c.nid = n ∧ c.reps ≠ 0) with
    | some c' => simp [Option.or]
    | none =>
      simp only [Option.or]
      by_cases hc : c.nid = n ∧ c.reps ≠ 0
      · rw [List.find?_cons_of_pos _ (by simpa using hc)]
        unfold stats_step
        rw [if_neg hc.2, dfind_dinsert, if_pos hc.1.symm]
        rfl
      · rw [List.find?_cons_of_neg _ (by simpa using hc)]
        push_neg at hc
        unfold stats_step
        by_cases hr : c.reps = 0
        · rw [if_pos hr]; rfl
        · have hn : ¬n = c.nid := fun he => hr (hc he.symm)
          rw [if_neg hr, dfind_dinsert, if_neg hn]; rfl

theorem dfind_note_stats (cards : List Card) (cfg : String → Int) (n : Nat) :
    dfind (note_stats cards cfg) n =
      ((cards.reverse.find? fun c => decide (c.nid = n ∧ c.reps ≠ 0)).map
        fun c => judge_difficulty c cfg) := by
  unfold note_stats
  rw [dfind_foldl_stats]
  cases (cards.reverse.find? fun c => decide (c.nid = n ∧ c.reps ≠ 0)).map
      fun c => judge_difficulty c cfg <;> rfl

theorem apply_tags_foldl (d : List (Nat × String)) :
    ∀ (m : Nat → List String) (k : Nat),
      d.foldl tags_step (m, k) = (apply_map d m, k + d.length) := by
  induction d with
  | nil => intro m k; simp [apply_map]
  | cons p d ih =>
    intro m k
    simp only [List.foldl_cons]
    rw [show tags_step (m, k) p = (map_step m p, k + 1) from rfl, ih,
      show apply_map (p :: d) m = apply_map d (map_step m p) from rfl]
    have : k + 1 + d.length = k + (p :: d).length := by simp; omega
    rw [this]

theorem apply_tags_eq (d : List (Nat × String)) (notes : Nat → List String) :
    apply_tags d notes = (apply_map d notes, d.length) := by
  unfold apply_tags
  rw [apply_tags_foldl]
  simp

theorem apply_map_not_mem (d : List (Nat × String)) :
    ∀ (m : Nat → List String) (n : Nat), n ∉ d.map Prod.fst → apply_map d m n = m n := by
  induction d with
  | nil => intro m n _; rfl
  | cons p d ih =>
    intro m n h
    simp only [List.map_cons, List.mem_cons, not_or] at h
    rw [show apply_map (p :: d) m = apply_map d (map_step m p) from rfl, ih _ _ h.2]
    unfold map_step
    rw [if_neg h.1]

theorem apply_map_mem (d : List (Nat × String)) :
    ∀ (m : Nat → List String) (n : Nat) (t : String),
      (d.map Prod.fst).Nodup → (n, t) ∈ d → apply_map d m n = apply_tag (m n) t := by
  induction d with
  | nil => intro m n t _ h; cases h
  | cons p d ih =>
    intro m n t hnd h
    simp only [List.map_cons, List.nodup_cons] at hnd
    rcases List.mem_cons.1 h with h1 | h1
    · have hk : n ∉ d.map Prod.fst := by rw [← h1] at hnd; exact hnd.1
      rw [show apply_map (p :: d) m = apply_map d (map_step m p) from rfl,
        apply_map_not_mem d _ n hk]
      unfold map_step
      rw [← h1, if_pos rfl]
    · have hne : ¬n = p.1 := by
        intro he
        exact hnd.1 (he ▸ List.mem_map.2 ⟨(n, t), h1, rfl⟩)
      rw [show apply_map (p :: d) m = apply_map d (map_step m p) from rfl,
        ih _ _ _ hnd.2 h1]
      unfold map_step
      rw [if_neg hne]

theorem note_stats_ne_nil (cards : List Card) (cfg : String → Int)
    (h : note_stats cards cfg ≠ []) : cards ≠ [] :=
  fun he => h (by rw [he]; rfl)

theorem assign_fst_mem (cards : List Card) (cfg : String → Int) (notes : Nat → List String)
    (n : Nat) (t : String) (hnt : (n, t) ∈ note_stats cards cfg) (hne : cards ≠ []) :
    (_assign_difficulty_tags cards cfg notes).1 n = apply_tag (notes n) t := by
  unfold _assign_difficulty_tags
  rw [if_neg hne, apply_tags_eq]
  exact apply_map_mem _ notes n t (note_stats_keys_nodup cards cfg) hnt

/-- Claim C3: after `_assign_difficulty_tags`, every processed note (one
whose id was recorded in `note_stats`) carries at most one tag of the
five-tag vocabulary, assuming its prior tag set held no duplicate strings. -/
theorem reconcile_at_most_one_tag (cards : List Card) (cfg : String → Int)
    (notes : Nat → List String) (nid : Nat)
    (hmem : nid ∈ (note_stats cards cfg).map Prod.fst)
    (hnd : (notes nid).Nodup) :
    count_difficulty_tags ((_assign_difficulty_tags cards cfg notes).1 nid) ≤ 1 := by
  obtain ⟨⟨k, t⟩, hp, hk⟩ := List.mem_map.1 hmem
  obtain rfl : k = nid := hk
  have hne : cards ≠ [] :=
    note_stats_ne_nil cards cfg (fun h => by rw [h] at hp; cases hp)
  rw [assign_fst_mem cards cfg notes _ t hp hne]
  exact count_apply_tag_le_one _ _ hnd

/-- Witness for C3: a note that starts with two difficulty tags ends with at
most one. -/
theorem reconcile_at_most_one_tag_witness :
    count_difficulty_tags
      ((_assign_difficulty_tags [Card.mk 1 1 0 0 2000] DEFAULTS
        (fun _ => [EASY_TAG, VERY_HARD_TAG, "x"])).1 1) ≤ 1 :=
  reconcile_at_most_one_tag [Card.mk 1 1 0 0 2000] DEFAULTS
    (fun _ => [EASY_TAG, VERY_HARD_TAG, "x"]) 1 (by decide) (by decide)

/-- Claim C4: `_assign_difficulty_tags` is idempotent in effect — a second
run on the resulting note store with the same cards and configuration
returns the same store and the same processed count, assuming note tag sets
hold no duplicate strings. -/
theorem reconcile_idempotent (cards : List Card) (cfg : String → Int)
    (notes : Nat → List String) (hnd : ∀ n, (notes n).Nodup) :
    _assign_difficulty_tags cards cfg (_assign_difficulty_tags cards cfg notes).1 =
      _assign_difficulty_tags cards cfg notes := by
  by_cases hne : cards = []
  · rw [hne]; rfl
  · unfold _assign_difficulty_tags
    simp only [if_neg hne, apply_tags_eq]
    have hmap : apply_map (note_stats cards cfg) (apply_map (note_stats cards cfg) notes) =
        apply_map (note_stats cards cfg) notes := by
      funext n
      by_cases hmem : n ∈ (note_stats cards cfg).map Prod.fst
      · obtain ⟨⟨k, t⟩, hp, hk⟩ := List.mem_map.1 hmem
        obtain rfl : k = n := hk
        rw [apply_map_mem _ _ k t (note_stats_keys_nodup cards cfg) hp,
          apply_map_mem _ _ k t (note_stats_keys_nodup cards cfg) hp]
        exact apply_tag_idem _ _ (hnd k) (note_stats_values cards cfg (k, t) hp)
      · rw [apply_map_not_mem _ _ n hmem, apply_map_not_mem _ _ n hmem]
    rw [hmap]

/-- Witness for C4: a concrete two-card run is unchanged by a second run. -/
theorem reconcile_idempotent_witness :
    _assign_difficulty_tags [Card.mk 1 1 6 2 2000, Card.mk 2 1 0 100 2600] DEFAULTS
        (_assign_difficulty_tags [Card.mk 1 1 6 2 2000, Card.mk 2 1 0 100 2600] DEFAULTS
          (fun _ => ["foo", MEDIUM_TAG])).1 =
      _assign_difficulty_tags [Card.mk 1 1 6 2 2000, Card.mk 2 1 0 100 2600] DEFAULTS
        (fun _ => ["foo", MEDIUM_TAG]) :=
  reconcile_idempotent [Card.mk 1 1 6 2 2000, Card.mk 2 1 0 100 2600] DEFAULTS
    (fun _ => ["foo", MEDIUM_TAG])
    (fun _ => (by decide : (["foo", MEDIUM_TAG] : List String).Nodup))

/-- Claim C6: when several qualifying cards share a note id, the tag the
reconciler finally applies to that note is the one computed for the last
such card in the supplied processing order. -/
theorem reconcile_last_write_wins (cards : List Card) (cfg : String → Int)
    (notes : Nat → List String) (nid : Nat) (clast : Card)
    (hlast : (cards.reverse.find? fun c => decide (c.nid = nid ∧ c.reps ≠ 0)) = some clast) :
    (_assign_difficulty_tags cards cfg notes).1 nid =
      apply_tag (notes nid) (judge_difficulty clast cfg) := by
  have hmem : (nid, judge_difficulty clast cfg) ∈ note_stats cards cfg := by
    apply dfind_mem
    rw [dfind_note_stats, hlast]
    rfl
  have hne : cards ≠ [] := by
    intro he
    rw [he] at hlast
    cases hlast
  exact assign_fst_mem cards cfg notes nid _ hmem hne

/-- Witness for C6: two qualifying cards on note 3; the second card's label
(VeryEasy) wins over the first card's (VeryHard). -/
theorem reconcile_last_write_wins_witness :
    (_assign_difficulty_tags [Card.mk 3 1 10 0 1000, Card.mk 3 1 0 100 2600] DEFAULTS
        (fun _ => [])).1 3 =
      apply_tag ((fun _ => ([] : List String)) 3)
        (judge_difficulty (Card.mk 3 1 0 100 2600) DEFAULTS) :=
  reconcile_last_write_wins [Card.mk 3 1 10 0 1000, Card.mk 3 1 0 100 2600] DEFAULTS
    (fun _ => []) 3 (Card.mk 3 1 0 100 2600) (by decide)

theorem mem_foldl_stats_keys (cfg : String → Int) (n : Nat) (cards : List Card) :
    ∀ d : List (Nat × String),
      (n ∈ (cards.foldl (stats_step cfg) d).map Prod.fst ↔
        n ∈ d.map Prod.fst ∨ ∃ c ∈ cards, c.reps ≠ 0 ∧ c.nid = n) := by
  induction cards with
  | nil => intro d; simp
  | cons c cards ih =>
    intro d
    simp only [List.foldl_cons]
    rw [ih]
    unfold stats_step
    by_cases h : c.reps = 0
    · rw [if_pos h]
      constructor
      · rintro (hd | ⟨c', hc', hr, hn⟩)
        · exact Or.inl hd
        · exact Or.inr ⟨c', List.mem_cons_of_mem _ hc', hr, hn⟩
      · rintro (hd | ⟨c', hc', hr, hn⟩)
        · exact Or.inl hd
        · rcases List.mem_cons.1 hc' with rfl | hc2
          · exact (hr h).elim
          · exact Or.inr ⟨c', hc2, hr, hn⟩
    · rw [if_neg h, mem_dinsert_fst]
      constructor
      · rintro ((rfl | hd) | ⟨c', hc', hr, hn⟩)
        · exact Or.inr ⟨c, List.mem_cons_self _ _, h, rfl⟩
        · exact Or.inl hd
        · exact Or.inr ⟨c', List.mem_cons_of_mem _ hc', hr, hn⟩
      · rintro (hd | ⟨c', hc', hr, hn⟩)
        · exact Or.inl (Or.inr hd)
        · rcases List.mem_cons.1 hc' with rfl | hc2
          · exact Or.inl (Or.inl hn.symm)
          · exact Or.inr ⟨c', hc2, hr, hn⟩

theorem mem_note_stats_keys (cards : List Card) (cfg : String → Int) (n : Nat) :
    n ∈ (note_stats cards cfg).map Prod.fst ↔ ∃ c ∈ cards, c.reps ≠ 0 ∧ c.nid = n := by
  unfold note_stats
  rw [mem_foldl_stats_keys]
  simp

theorem note_stats_length_eq (cards : List Card) (cfg : String → Int) :
    (note_stats cards cfg).length =
      ((cards.filter fun c => decide (c.reps ≠ 0)).map fun c => c.nid).toFinset.card := by
  have h1 : ((note_stats cards cfg).map Prod.fst).toFinset =
      ((cards.filter fun c => decide (c.reps ≠ 0)).map fun c => c.nid).toFinset := by
    ext n
    rw [List.mem_toFinset, mem_note_stats_keys, List.mem_toFinset]
    simp only [List.mem_map, List.mem_filter, decide_eq_true_eq]
    aesop
  calc (note_stats cards cfg).length
      = ((note_stats cards cfg).map Prod.fst).length := (List.length_map _ _).symm
    _ = ((note_stats cards cfg).map Prod.fst).toFinset.card :=
        (List.toFinset_card_of_nodup (note_stats_keys_nodup cards cfg)).symm
    _ = _ := by rw [h1]

theorem foldl_stats_filter (cfg : String → Int) (cards : List Card) :
    ∀ d : List (Nat × String),
      (cards.filter fun c => decide (c.reps ≠ 0)).foldl (stats_step cfg) d =
        cards.foldl (stats_step cfg) d := by
  induction cards with
  | nil => intro d; rfl
  | cons c cards ih =>
    intro d
    simp only [List.filter_cons, List.foldl_cons]
    by_cases h : c.reps = 0
    · rw [if_neg (by simp [h]), ih]
      unfold stats_step
      rw [if_pos h]
    · rw [if_pos (by simp [h]), List.foldl_cons, ih]

/-- Claim C7: the reconciler returns the number of distinct note ids among
supplied cards with nonzero reps; zero-reps cards are skipped (dropping them
does not change the result); an empty selection returns 0 with the note
store untouched. -/
theorem reconcile_processed_count (cards : List Card) (cfg : String → Int)
    (notes : Nat → List String) :
    (_assign_difficulty_tags cards cfg notes).2 =
        ((cards.filter fun c => decide (c.reps ≠ 0)).map fun c => c.nid).toFinset.card ∧
      _assign_difficulty_tags cards cfg notes =
        _assign_difficulty_tags (cards.filter fun c => decide (c.reps ≠ 0)) cfg notes ∧
      _assign_difficulty_tags [] cfg notes = (notes, 0) := by
  refine ⟨?_, ?_, rfl⟩
  · by_cases hne : cards = []
    · subst hne; rfl
    · unfold _assign_difficulty_tags
      rw [if_neg hne, apply_tags_eq]
      exact note_stats_length_eq cards cfg
  · have hns : note_stats (cards.filter fun c => decide (c.reps ≠ 0)) cfg =
        note_stats cards cfg := by
      unfold note_stats
      exact foldl_stats_filter cfg cards []
    by_cases hne : cards = []
    · subst hne; rfl
    · by_cases hfe : (cards.filter fun c => decide (c.reps ≠ 0)) = []
      · unfold _assign_difficulty_tags
        rw [if_neg hne, if_pos hfe]
        have hempty : note_stats cards cfg = [] := by rw [← hns, hfe]; rfl
        rw [hempty]
        rfl
      · unfold _assign_difficulty_tags
        rw [if_neg hne, if_neg hfe, hns]

/-- Claim C8: reconciliation preserves every tag outside the five-tag
vocabulary on each processed note (and adds none); concretely, a note
tagged `{"foo", "Hard"}` whose recomputed label is VeryEasy ends with
exactly `["foo", "VeryEasy"]`. -/
theorem reconcile_preserves_unrelated_tags (cards : List Card) (cfg : String → Int)
    (notes : Nat → List String) (nid : Nat) (s : String)
    (hmem : nid ∈ (note_stats cards cfg).map Prod.fst)
    (hs : s ∉ ALL_TAGS) :
    ((s ∈ (_assign_difficulty_tags cards cfg notes).1 nid) ↔ s ∈ notes nid) ∧
      (_assign_difficulty_tags [Card.mk 7 1 0 100 2600] DEFAULTS
          (fun _ => ["foo", HARD_TAG])).1 7 = ["foo", VERY_EASY_TAG] := by
  constructor
  · obtain ⟨⟨k, t⟩, hp, hk⟩ := List.mem_map.1 hmem
    obtain rfl : k = nid := hk
    have hne : cards ≠ [] :=
      note_stats_ne_nil cards cfg (fun h => by rw [h] at hp; cases hp)
    rw [assign_fst_mem cards cfg notes _ t hp hne]
    unfold apply_tag
    rw [List.mem_append]
    have h1 := mem_erase_all (notes k) s hs
    have hne2 : s ≠ t := fun he => hs (by rw [he]; exact note_stats_values cards cfg (k, t) hp)
    simp [h1, hne2]
  · rfl

/-- Witness for C8 at the scenario inputs: the unrelated tag "foo" survives
reconciliation of a note owning one VeryEasy-judged card. -/
theorem reconcile_preserves_unrelated_tags_witness :
    (("foo" ∈ (_assign_difficulty_tags [Card.mk 7 1 0 100 2600] DEFAULTS
        (fun _ => ["foo", HARD_TAG])).1 7) ↔
      "foo" ∈ (fun _ => ["foo", HARD_TAG] : Nat → List String) 7) ∧
      (_assign_difficulty_tags [Card.mk 7 1 0 100 2600] DEFAULTS
          (fun _ => ["foo", HARD_TAG])).1 7 = ["foo", VERY_EASY_TAG] :=
  reconcile_preserves_unrelated_tags [Card.mk 7 1 0 100 2600] DEFAULTS
    (fun _ => ["foo", HARD_TAG]) 7 "foo" (by decide) (by decide)

/-- Claim C5: with interval and ease fixed, increasing lapses never moves
the label toward the easy end: a non-Easy/non-VeryEasy label stays
non-Easy/non-VeryEasy, VeryHard stays VeryHard, and Hard stays VeryHard or
Hard. -/
theorem judge_monotone_lapses (c1 c2 : Card) (cfg : String → Int)
    (hlap : c1.lapses ≤ c2.lapses) (hivl : c1.ivl = c2.ivl) (hfac : c1.factor = c2.factor) :
    ((judge_difficulty c1 cfg ≠ EASY_TAG ∧ judge_difficulty c1 cfg ≠ VERY_EASY_TAG) →
      (judge_difficulty c2 cfg ≠ EASY_TAG ∧ judge_difficulty c2 cfg ≠ VERY_EASY_TAG)) ∧
    (judge_difficulty c1 cfg = VERY_HARD_TAG → judge_difficulty c2 cfg = VERY_HARD_TAG) ∧
    (judge_difficulty c1 cfg = HARD_TAG →
      judge_difficulty c2 cfg = VERY_HARD_TAG ∨ judge_difficulty c2 cfg = HARD_TAG) := by
  unfold judge_difficulty
  rw [hivl, hfac]
  split_ifs
  all_goals
    simp_all [VERY_HARD_TAG, HARD_TAG, MEDIUM_TAG, EASY_TAG, VERY_EASY_TAG]
  all_goals omega

/-- Witness for C5: raising lapses from 0 to 2 at fixed interval 5 and
ease 2400 keeps the Medium card away from Easy/VeryEasy. -/
theorem judge_monotone_lapses_witness :
    ((judge_difficulty (Card.mk 1 1 0 5 2400) DEFAULTS ≠ EASY_TAG ∧
        judge_difficulty (Card.mk 1 1 0 5 2400) DEFAULTS ≠ VERY_EASY_TAG) →
      (judge_difficulty (Card.mk 1 1 2 5 2400) DEFAULTS ≠ EASY_TAG ∧
        judge_difficulty (Card.mk 1 1 2 5 2400) DEFAULTS ≠ VERY_EASY_TAG)) ∧
    (judge_difficulty (Card.mk 1 1 0 5 2400) DEFAULTS = VERY_HARD_TAG →
      judge_difficulty (Card.mk 1 1 2 5 2400) DEFAULTS = VERY_HARD_TAG) ∧
    (judge_difficulty (Card.mk 1 1 0 5 2400) DEFAULTS = HARD_TAG →
      judge_difficulty (Card.mk 1 1 2 5 2400) DEFAULTS = VERY_HARD_TAG ∨
        judge_difficulty (Card.mk 1 1 2 5 2400) DEFAULTS = HARD_TAG) :=
  judge_monotone_lapses (Card.mk 1 1 0 5 2400) (Card.mk 1 1 2 5 2400) DEFAULTS
    (by decide) rfl rfl

/-- Claim C9: the configuration save path never raises: it returns `ok`
for every store behaviour — persisting via the primary write when it
succeeds, via the fallback when the primary raises, and leaving the store
untouched (silent no-op) when both raise. -/
theorem write_config_never_raises (m : AddonManager) (updated : List (String × Int)) :
    _write_config_keep_unknown m updated =
      Except.ok
        (if m.writeFails = false then
          AddonManager.mk (merge_known m.stored updated) false m.setFails
         else if m.setFails = false then
          AddonManager.mk (merge_known m.stored updated) true false
         else m) := by
  rcases m with ⟨s, w, f⟩
  cases w <;> cases f <;> rfl

/-- Claim C10: `judge_difficulty` depends only on a card's lapses, ivl and
factor and the nine named configuration keys: all other card fields and any
extra configuration keys never influence the label. -/
theorem judge_noninterference (c1 c2 : Card) (cfg1 cfg2 : String → Int)
    (hl : c1.lapses = c2.lapses) (hi : c1.ivl = c2.ivl) (hf : c1.factor = c2.factor)
    (hc : ∀ k ∈ CONFIG_KEYS, cfg1 k = cfg2 k) :
    judge_difficulty c1 cfg1 = judge_difficulty c2 cfg2 := by
  have e1 := hc "very_hard_lapses_min" (by simp [CONFIG_KEYS])
  have e2 := hc "very_hard_ease_max_pct" (by simp [CONFIG_KEYS])
  have e3 := hc "hard_lapses_min" (by simp [CONFIG_KEYS])
  have e4 := hc "hard_ease_max_pct" (by simp [CONFIG_KEYS])
  have e5 := hc "easy_lapses_max" (by simp [CONFIG_KEYS])
  have e6 := hc "easy_ivl_min" (by simp [CONFIG_KEYS])
  have e7 := hc "easy_ease_min_pct" (by simp [CONFIG_KEYS])
  have e8 := hc "very_easy_ivl_min" (by simp [CONFIG_KEYS])
  have e9 := hc "very_easy_ease_min_pct" (by simp [CONFIG_KEYS])
  unfold judge_difficulty
  rw [hl, hi, hf, e1, e2, e3, e4, e5, e6, e7, e8, e9]

/-- Witness for C10: two cards differing in nid and reps, two configs
differing on an extra key, same label. -/
theorem judge_noninterference_witness :
    judge_difficulty (Card.mk 1 5 0 30 2600) DEFAULTS =
      judge_difficulty (Card.mk 99 1 0 30 2600)
        (fun k => if k = "extra_key" then 7 else DEFAULTS k) :=
  judge_noninterference (Card.mk 1 5 0 30 2600) (Card.mk 99 1 0 30 2600) DEFAULTS
    (fun k => if k = "extra_key" then 7 else DEFAULTS k) rfl rfl rfl (by decide)

end Difficulty
